import Mathlib

/-
Verification development for the playwright-webscraping repository.
The definitions below are a shallow embedding of src/utils.ts and
src/scraping.ts: strings are Lean Strings, JavaScript Buffers are lists
of byte values (Nat), the file system is an explicit state threaded
through the persistence functions, thrown exceptions are Except errors,
and the stateful global-flag regular expressions carry their lastIndex
explicitly.
-/

namespace WebScraping

/-- JavaScript value flowing into savePageContent as its content
argument: a string, a Buffer (list of byte values), null, or undefined. -/
inductive Content where
  | str (s : String)
  | buf (b : List Nat)
  | nullV
  | undefinedV
deriving DecidableEq

/-- UTF-8 encoding of one character, as byte values. -/
def utf8Char (c : Char) : List Nat :=
  let n := c.toNat
  if n < 128 then [n]
  else if n < 2048 then [192 + n / 64, 128 + n % 64]
  else if n < 65536 then [224 + n / 4096, 128 + (n / 64) % 64, 128 + n % 64]
  else [240 + n / 262144, 128 + (n / 4096) % 64, 128 + (n / 64) % 64, 128 + n % 64]

/-- Bytes of Buffer.from(s, "utf-8"), as natural numbers. -/
def utf8Bytes (s : String) : List Nat :=
  s.toList.flatMap utf8Char

/-- Split a character list at every occurrence of the separator
character; mirrors JavaScript String.prototype.split with a one
character separator (the empty string splits to one empty part). -/
def splitOnChar (sep : Char) : List Char → List (List Char)
  | [] => [[]]
  | c :: rest =>
    let r := splitOnChar sep rest
    if c = sep then [] :: r
    else
      match r with
      | [] => [[c]]
      | h :: t => (c :: h) :: t

/-- Join character lists with a separator character (Array.join). -/
def joinSep (sep : Char) : List (List Char) → List Char
  | [] => []
  | [x] => x
  | x :: y :: t => x ++ sep :: joinSep sep (y :: t)

/-- Fault model for the file-system capability: which mkdir targets and
which write targets raise an error. -/
structure FsEnv where
  mkdirFails : String → Bool
  writeFails : String → Bool

/-- File-system state: the files present (path, bytes) and the log of
every write-bytes call performed, in order. -/
structure FS where
  files : List (String × List Nat)
  writeLog : List (String × List Nat)
deriving DecidableEq

/-- True when the three characters of the scheme separator sit at
position i of the character list. -/
def schemeSepAt (l : List Char) (i : Nat) : Bool :=
  List.isPrefixOf [':', '/', '/'] (l.drop i)

/-- utils.ts PROTOCOL_REGEX = `^.+://` and url.replace(PROTOCOL_REGEX, ""):
the anchored greedy match removes everything through the last scheme
separator, provided at least one character precedes it. -/
def stripProtocolL (l : List Char) : List Char :=
  match (((List.range l.length).filter
      (fun i => decide (1 ≤ i) && schemeSepAt l i)).getLast?) with
  | some i => l.drop (i + 3)
  | none => l

/-- String wrapper for stripProtocolL. -/
def stripProtocol (s : String) : String :=
  String.mk (stripProtocolL s.toList)

/-- utils.ts UrlParts. -/
structure UrlParts where
  directoryPath : String
  filename : String
deriving DecidableEq

/-- utils.ts splitUrl: strip the protocol, split on "/", the last part
(or "index" when it is empty) is the filename, the rest joined with "/"
is the directory path. -/
def splitUrl (url : String) : UrlParts :=
  let parts := splitOnChar '/' (stripProtocol url).toList
  let last := (parts.getLast?).getD []
  { directoryPath := String.mk (joinSep '/' parts.dropLast)
    filename := if last = [] then ("index") else String.mk last }

/-- Collapse every run of two or more consecutive slashes into one
(the replacement of `/{2,}` by a single slash). -/
def collapseSlashes : List Char → List Char
  | [] => []
  | [c] => [c]
  | a :: b :: rest =>
    if a = '/' ∧ b = '/' then collapseSlashes (b :: rest)
    else a :: collapseSlashes (b :: rest)

/-- Model of Node path.join restricted to what the repository relies on:
empty segments are dropped, segments are joined with "/", duplicate
slashes are collapsed (no dot-segment normalization). -/
def pathJoinList (xs : List String) : String :=
  String.mk (collapseSlashes
    (joinSep '/' ((xs.filter (fun x => x ≠ (""))).map String.toList)))

/-- utils.ts getFileFullPath: path.join(baseOutputDir, directoryPath,
filename) of splitUrl. -/
def getFileFullPath (baseOutputDir url : String) : String :=
  pathJoinList [baseOutputDir, (splitUrl url).directoryPath, (splitUrl url).filename]

/-- utils.ts createDirectories: recursive mkdir of
path.join(baseOutputDir, directoryPath); a file-system error is logged
and rethrown, modelled as an Except error. -/
def createDirectoriesE (env : FsEnv) (baseOutputDir url : String) : Except Unit Unit :=
  if env.mkdirFails (pathJoinList [baseOutputDir, (splitUrl url).directoryPath]) then
    Except.error ()
  else Except.ok ()

/-- utils.ts existsFile: fs.existsSync at getFileFullPath. -/
def existsFile (baseOutputDir url : String) (fs : FS) : Bool :=
  ((fs.files.lookup (getFileFullPath baseOutputDir url)).isSome)

/-- Overwriting insertion of a file into the file table. -/
def fsWrite (files : List (String × List Nat)) (p : String) (b : List Nat) :
    List (String × List Nat) :=
  (p, b) :: files.filter (fun e => ¬ (e.1 = p))

/-- utils.ts saveFile: when the body is not null, write the bytes at
getFileFullPath; a file-system error is logged and rethrown. -/
def saveFile (env : FsEnv) (baseOutputDir url : String)
    (body : Option (List Nat)) (fs : FS) : Except Unit FS :=
  match body with
  | none => Except.ok fs
  | some b =>
    let p := getFileFullPath baseOutputDir url
    if env.writeFails p then Except.error ()
    else Except.ok ⟨fsWrite fs.files p b, fs.writeLog ++ [(p, b)]⟩

/-- scraping.ts savePageContent: create the directories, skip when
overwrite is disabled and the file exists, otherwise build the payload
(utf-8 bytes of a string, the bytes of a Buffer, empty for null or
undefined) and write it unless the content is exactly null. -/
def savePageContent (env : FsEnv) (content : Content)
    (baseOutputDir url : String) (overrides : Bool) (fs : FS) : Except Unit FS :=
  match createDirectoriesE env baseOutputDir url with
  | Except.error _ => Except.error ()
  | Except.ok _ =>
    if overrides = false ∧ existsFile baseOutputDir url fs = true then Except.ok fs
    else
      let payload : List Nat :=
        match content with
        | Content.str s => utf8Bytes s
        | Content.buf b => b
        | Content.nullV => []
        | Content.undefinedV => []
      if content = Content.nullV then Except.ok fs
      else saveFile env baseOutputDir url (some payload) fs

/-- Fault-free file-system environment, used by concrete witnesses. -/
def noFaultFs : FsEnv := ⟨fun _ => false, fun _ => false⟩

/-- ASCII decimal digit test. -/
def isDigitC (c : Char) : Bool :=
  decide (48 ≤ c.toNat) && decide (c.toNat ≤ 57)

/-- ASCII letter test. -/
def isAsciiAlpha (c : Char) : Bool :=
  (decide (65 ≤ c.toNat) && decide (c.toNat ≤ 90)) ||
  (decide (97 ≤ c.toNat) && decide (c.toNat ≤ 122))

/-- ASCII alphanumeric test (the a-zA-Z0-9 character class). -/
def isAlnum (c : Char) : Bool := isAsciiAlpha c || isDigitC c

/-- ASCII lower-casing of one character. -/
def lowerAscii (c : Char) : Char :=
  if 65 ≤ c.toNat ∧ c.toNat ≤ 90 then Char.ofNat (c.toNat + 32) else c

/-- utils.ts removePortFromUrl: url.replace(`:[0-9]+`, ""), i.e. drop the
first colon-digits run. -/
def removePortL : List Char → List Char
  | [] => []
  | ':' :: d :: t =>
    if isDigitC d then (d :: t).dropWhile isDigitC
    else ':' :: removePortL (d :: t)
  | c :: rest => c :: removePortL rest

/-- String wrapper for removePortL. -/
def removePortFromUrl (url : String) : String :=
  String.mk (removePortL url.toList)

/-- Index of the first occurrence of the scheme separator. -/
def findSchemeSep (l : List Char) : Option Nat :=
  (((List.range l.length).filter (fun i => schemeSepAt l i)).head?)

/-- utils.ts removeDoubleBars: split on the scheme separator; when it is
present, keep the part before it and collapse slash runs only in the
part between the first and (dropping everything from) the second
occurrence, exactly as the JavaScript parts[0] + sep + parts[1] does;
otherwise collapse slash runs in the whole string. -/
def removeDoubleBarsL (l : List Char) : List Char :=
  match findSchemeSep l with
  | none => collapseSlashes l
  | some i =>
    let suf := l.drop (i + 3)
    let part1 :=
      match findSchemeSep suf with
      | some j => suf.take j
      | none => suf
    l.take i ++ ':' :: '/' :: '/' :: collapseSlashes part1

/-- String wrapper for removeDoubleBarsL. -/
def removeDoubleBars (url : String) : String :=
  String.mk (removeDoubleBarsL url.toList)

/-- utils.ts unionUrl: join base and path, inserting a slash only when
the base does not end with one and the (non-empty) path does not start
with one. -/
def unionUrl (baseUrl path : String) : String :=
  let sep :=
    if baseUrl.toList.getLast? = some '/' ∨ (path ≠ ("") ∧ path.toList.head? = some '/')
    then ("") else ("/")
  baseUrl ++ sep ++ path

/-- utils.ts unionUrlParts: domain, colon, port, optional slash-path,
with every double slash pair of that joined string replaced by one
slash, behind the scheme separator. -/
def replaceSlashPairs : List Char → List Char
  | [] => []
  | '/' :: '/' :: t => '/' :: replaceSlashPairs t
  | c :: t => c :: replaceSlashPairs t

/-- utils.ts unionUrlParts (the seed URL builder). -/
def unionUrlParts (protocol domain : String) (port : Nat) (path : String) : String :=
  let joined := domain ++ (":") ++ toString port ++
    (if path = ("") then ("") else ("/") ++ path)
  protocol ++ ("://") ++ String.mk (replaceSlashPairs joined.toList)

/-- The test of scraping.ts regex `.+/(.+\.[a-zA-Z0-9]{2,5}|#[^/]*)$`:
some slash with at least one character before it is followed either by a
segment ending in a dot plus two-to-five alphanumerics, or by a
hash fragment containing no slash. -/
def extOrFragTest (l : List Char) : Bool :=
  (List.range l.length).any (fun i =>
    decide (1 ≤ i) && decide (l.getD i ' ' = '/') &&
    (let seg := l.drop (i + 1)
     ((List.range seg.length).any (fun j =>
        decide (1 ≤ j) && decide (seg.getD j ' ' = '.') &&
        (let ext := seg.drop (j + 1)
         decide (2 ≤ ext.length) && decide (ext.length ≤ 5) && ext.all isAlnum)))
      ||
      (match seg with
       | '#' :: t => t.all (fun c => decide (c ≠ '/'))
       | _ => false)))

/-- Everything up to and including the last slash (the replacement of
`/[^/]*/?$` by a single slash for a string not ending in a slash). -/
def keepThroughLastSlash (l : List Char) : List Char :=
  match (((List.range l.length).filter (fun i => decide (l.getD i ' ' = '/'))).getLast?) with
  | some i => l.take (i + 1)
  | none => l

/-- scraping.ts removeExtensionOrFragment: keep a URL ending in a slash;
when the URL ends in a dotted filename or a fragment, replace the last
segment by its containing directory; otherwise keep it. -/
def removeExtensionOrFragment (url : String) : String :=
  let l := url.toList
  if decide (2 ≤ l.length) && decide (l.getLast? = some '/') then url
  else if extOrFragTest l then String.mk (keepThroughLastSlash l)
  else url

/-- Uppercase hexadecimal digit of a value below 16. -/
def hexDigitC (n : Nat) : Char :=
  if n < 10 then Char.ofNat (48 + n) else Char.ofNat (55 + n)

/-- Characters the encodeurl package leaves unencoded. -/
def encodeUrlAllowed (c : Char) : Bool :=
  let n := c.toNat
  decide (n = 33) || (decide (35 ≤ n) && decide (n ≤ 59)) || decide (n = 61) ||
  (decide (63 ≤ n) && decide (n ≤ 95)) || (decide (97 ≤ n) && decide (n ≤ 122)) ||
  decide (n = 124) || decide (n = 126)

/-- Model of the encodeurl package: allowed characters are kept, every
other character is replaced by the percent-encoding of its utf-8
bytes. -/
def encodeUrlModel (s : String) : String :=
  String.mk (s.toList.flatMap (fun c =>
    if encodeUrlAllowed c then [c]
    else (utf8Char c).flatMap (fun b => ['%', hexDigitC (b / 16), hexDigitC (b % 16)])))

/-- The test of the case-insensitive anchored regex `^https?://`. -/
def startsWithHttp (l : List Char) : Bool :=
  let ll := l.map lowerAscii
  List.isPrefixOf ['h', 't', 't', 'p', ':', '/', '/'] ll ||
  List.isPrefixOf ['h', 't', 't', 'p', 's', ':', '/', '/'] ll

/-- The map stage of scraping.ts filterSameDomainLinks: a link that
already carries an http or https scheme is used as-is, any other link is
resolved against the current URL (with its trailing filename or
fragment removed), double separators are collapsed, and the result is
encoded. -/
def canonicalizeLink (currentUrl link : String) : String :=
  if startsWithHttp link.toList then link
  else encodeUrlModel (removeDoubleBars (unionUrl (removeExtensionOrFragment currentUrl) link))

/-- JavaScript String.prototype.trim on the ASCII whitespace characters
(plus no-break space). -/
def jsTrim (s : String) : String :=
  let ws := fun (c : Char) => c.toNat ∈ [9, 10, 11, 12, 13, 32, 160]
  String.mk (((s.toList.dropWhile ws).reverse.dropWhile ws).reverse)

/-- One stateful test of the module-level global regex IGNORE_URL_REGEX
`.+/about:blank$` (flags gi): a match needs the lower-cased string to
end in the twelve characters of slash-about-colon-blank with at least
one character before them at or after lastIndex; on success lastIndex
becomes the string length, on failure it resets to zero. -/
def jsTestIgnore (k : Nat) (s : String) : Bool × Nat :=
  let l := s.toList.map lowerAscii
  let n := l.length
  if decide (k + 13 ≤ n) &&
     List.isPrefixOf ['/', 'a', 'b', 'o', 'u', 't', ':', 'b', 'l', 'a', 'n', 'k'] (l.drop (n - 12))
  then (true, n) else (false, 0)

/-- The first filter stage of filterSameDomainLinks, threading the
lastIndex of the shared ignore regex through the whole pass. -/
def ignoreFilterFold (st : Nat) : List String → List String × Nat
  | [] => ([], st)
  | l :: t =>
    let r := jsTestIgnore st l
    let rest := ignoreFilterFold r.2 t
    (if r.1 then rest.1 else l :: rest.1, rest.2)

/-- Scheme of a URL string: a leading ASCII letter followed by scheme
characters and a colon; returns the lower-cased scheme and the part
after the colon. -/
def schemeSplit (l : List Char) : Option (List Char × List Char) :=
  match l with
  | [] => none
  | c :: _ =>
    if isAsciiAlpha c then
      let sch := l.takeWhile (fun d => isAlnum d || d = '+' || d = '-' || d = '.')
      match l.drop sch.length with
      | ':' :: r => some (sch.map lowerAscii, r)
      | _ => none
    else none

/-- The special schemes of the URL standard that force an authority. -/
def specialSchemes : List (List Char) :=
  [['h', 't', 't', 'p'], ['h', 't', 't', 'p', 's'], ['w', 's'], ['w', 's', 's'],
   ['f', 't', 'p']]

/-- Value of a digit list read in base ten. -/
def digitsToNat (l : List Char) : Nat :=
  l.foldl (fun a c => a * 10 + (c.toNat - 48)) 0

/-- Host of an authority component: strip the userinfo before the last
at-sign, then split off a valid numeric port (or reject); bracketed
hosts keep their brackets. Returns none for an invalid port. -/
def hostOfAuthority (auth : List Char) : Option (List Char) :=
  let hp := ((splitOnChar '@' auth).getLast?).getD auth
  match hp with
  | '[' :: t =>
    let inside := t.takeWhile (fun c => c ≠ ']')
    match t.drop inside.length with
    | ']' :: rest =>
      match rest with
      | [] => some ('[' :: inside ++ [']'])
      | ':' :: p =>
        if p.all isDigitC && decide (digitsToNat p ≤ 65535)
        then some ('[' :: inside ++ [']']) else none
      | _ => none
    | _ => none
  | _ =>
    let h := hp.takeWhile (fun c => c ≠ ':')
    match hp.drop h.length with
    | [] => some h
    | ':' :: p =>
      if p.all isDigitC && decide (digitsToNat p ≤ 65535) then some h else none
    | _ => none

/-- Model of hostname extraction of the WHATWG URL constructor (new
URL(link).hostname): none models a thrown TypeError. Special schemes
skip every slash or backslash after the colon and require a non-empty
host; other schemes have a host only after a double slash, and a
scheme-relative body without one yields the empty hostname. -/
def parseHostname (link : String) : Option String :=
  match schemeSplit link.toList with
  | none => none
  | some (sch, rest) =>
    if specialSchemes.contains sch then
      let auth := (rest.dropWhile (fun c => c = '/' ∨ c = '\\')).takeWhile
        (fun c => ¬(c = '/' ∨ c = '?' ∨ c = '#' ∨ c = '\\'))
      match hostOfAuthority auth with
      | none => none
      | some [] => none
      | some h => some (String.mk (h.map lowerAscii))
    else
      match rest with
      | '/' :: '/' :: r =>
        let auth := r.takeWhile (fun c => ¬(c = '/' ∨ c = '?' ∨ c = '#'))
        match hostOfAuthority auth with
        | none => none
        | some h => some (String.mk (h.map lowerAscii))
      | _ => some ("")

/-- Containment of one character list in another, contiguously. -/
def isInfixL (sub : List Char) : List Char → Bool
  | [] => decide (sub = [])
  | c :: t => List.isPrefixOf sub (c :: t) || isInfixL sub t

/-- JavaScript String.prototype.includes: substring containment. -/
def containsSubstr (s sub : String) : Bool :=
  isInfixL sub.toList s.toList

/-- The second filter stage of scraping.ts filterSameDomainLinks: parse
the candidate, admit when the hostname contains the base domain as a
substring (the hostname of a parsed URL is never null, so the
null-hostname disjunct of the source never fires); a parse failure is
caught and rejects the candidate. -/
def admitDomain (link base : String) : Bool :=
  match parseHostname link with
  | some h => containsSubstr h base
  | none => false

/-- scraping.ts filterSameDomainLinks: trim, canonicalize, drop links
matching the stateful ignore regex, keep links whose hostname contains
the base domain. -/
def filterSameDomainLinks (currentUrl : String) (links : List String)
    (base : String) (ignSt : Nat) : List String × Nat :=
  let mapped := (links.map jsTrim).map (fun l => canonicalizeLink currentUrl l)
  let kept := ignoreFilterFold ignSt mapped
  (kept.1.filter (fun l => admitDomain l base), kept.2)

/-- C6: with overwrite disabled and a file already present at the path
derived from the URL, savePageContent performs no write (file table and
write log are both unchanged) and returns without error. -/
theorem savePageContent_skip_existing
    (env : FsEnv) (content : Content) (base url : String) (fs : FS)
    (hmk : env.mkdirFails (pathJoinList [base, (splitUrl url).directoryPath]) = false)
    (hex : existsFile base url fs = true) :
    savePageContent env content base url false fs = Except.ok fs := by
  unfold savePageContent createDirectoriesE
  simp [hmk, hex]

/-- Witness for C6 at a concrete input: the file exists and the call
returns the file system unchanged. -/
theorem savePageContent_skip_existing_witness :
    existsFile ("out") ("http://h/a") ⟨[(("out/h/a"), [1, 2])], []⟩ = true ∧
    savePageContent noFaultFs (Content.buf [9]) ("out") ("http://h/a") false
      ⟨[(("out/h/a"), [1, 2])], []⟩ = Except.ok ⟨[(("out/h/a"), [1, 2])], []⟩ :=
  ⟨by decide, savePageContent_skip_existing noFaultFs (Content.buf [9]) ("out")
    ("http://h/a") ⟨[(("out/h/a"), [1, 2])], []⟩ rfl (by decide)⟩

/-- C7: when the write step is reached (directories created, not skipped
by the overwrite guard, target writable), a Buffer body is written
verbatim, a string body is written as its utf-8 bytes, and a null body
causes no write at all; an empty body therefore yields a zero-length
file. -/
theorem savePageContent_write_cases
    (env : FsEnv) (base url : String) (overrides : Bool) (fs : FS)
    (hmk : env.mkdirFails (pathJoinList [base, (splitUrl url).directoryPath]) = false)
    (hskip : ¬ (overrides = false ∧ existsFile base url fs = true))
    (hw : env.writeFails (getFileFullPath base url) = false) :
    (∀ b, savePageContent env (Content.buf b) base url overrides fs
      = Except.ok ⟨fsWrite fs.files (getFileFullPath base url) b,
          fs.writeLog ++ [(getFileFullPath base url, b)]⟩)
    ∧ (∀ s, savePageContent env (Content.str s) base url overrides fs
      = Except.ok ⟨fsWrite fs.files (getFileFullPath base url) (utf8Bytes s),
          fs.writeLog ++ [(getFileFullPath base url, utf8Bytes s)]⟩)
    ∧ savePageContent env Content.nullV base url overrides fs = Except.ok fs := by
  unfold savePageContent createDirectoriesE saveFile
  simp [hmk, hskip, hw]

/-- Witness for C7 at concrete inputs: a Buffer body is written verbatim,
an empty string body produces a zero-length write, a null body produces
no write. -/
theorem savePageContent_write_cases_witness :
    (savePageContent noFaultFs (Content.buf [7, 8]) ("out") ("http://h/b") true ⟨[], []⟩
      = Except.ok ⟨fsWrite [] (getFileFullPath ("out") ("http://h/b")) [7, 8],
          [] ++ [(getFileFullPath ("out") ("http://h/b"), [7, 8])]⟩)
    ∧ (savePageContent noFaultFs (Content.str ("")) ("out") ("http://h/b") true ⟨[], []⟩
      = Except.ok ⟨fsWrite [] (getFileFullPath ("out") ("http://h/b")) (utf8Bytes ("")),
          [] ++ [(getFileFullPath ("out") ("http://h/b"), utf8Bytes (""))]⟩)
    ∧ savePageContent noFaultFs Content.nullV ("out") ("http://h/b") true ⟨[], []⟩
      = Except.ok ⟨[], []⟩ := by
  have h := savePageContent_write_cases noFaultFs ("out") ("http://h/b") true ⟨[], []⟩
    rfl (by simp) rfl
  exact ⟨h.1 [7, 8], h.2.1 (""), h.2.2⟩

/-- C10: an undefined body is not skipped: it is treated like an empty
body, a zero-length file is created at the derived path (unlike null,
which skips the write). -/
theorem savePageContent_undefined_writes_empty
    (env : FsEnv) (base url : String) (overrides : Bool) (fs : FS)
    (hmk : env.mkdirFails (pathJoinList [base, (splitUrl url).directoryPath]) = false)
    (hskip : ¬ (overrides = false ∧ existsFile base url fs = true))
    (hw : env.writeFails (getFileFullPath base url) = false) :
    savePageContent env Content.undefinedV base url overrides fs
      = Except.ok ⟨fsWrite fs.files (getFileFullPath base url) [],
          fs.writeLog ++ [(getFileFullPath base url, [])]⟩
    ∧ ∀ fs', savePageContent env Content.undefinedV base url overrides fs = Except.ok fs' →
        fs'.files.lookup (getFileFullPath base url) = some [] := by
  unfold savePageContent createDirectoriesE saveFile
  simp [hmk, hskip, hw, fsWrite, List.lookup]

/-- Witness for C10 at a concrete input: undefined content creates a
zero-length file. -/
theorem savePageContent_undefined_writes_empty_witness :
    savePageContent noFaultFs Content.undefinedV ("out") ("http://h/c") false ⟨[], []⟩
      = Except.ok ⟨fsWrite [] (getFileFullPath ("out") ("http://h/c")) [],
          [] ++ [(getFileFullPath ("out") ("http://h/c"), [])]⟩ :=
  (savePageContent_undefined_writes_empty noFaultFs ("out") ("http://h/c") false ⟨[], []⟩
    rfl (by decide) rfl).1

/-- The alternatives of the HTML regexes, in source order (the order
decides which alternative a match consumes). -/
def htmlAlts : List (List Char) :=
  [['h', 't', 'm', 'l'], ['h', 't', 'm'], ['x', 'h', 't', 'm', 'l'], ['x', 'm', 'l']]

/-- Position q of the list carries the separator character immediately
followed by one of the HTML alternatives. -/
def qualAt (sep : Char) (s : List Char) (q : Nat) : Bool :=
  decide (s.getD q ' ' = sep) &&
  htmlAlts.any (fun a => List.isPrefixOf a (s.drop (q + 1)))

/-- All qualifying positions, in increasing order. -/
def qualPositions (sep : Char) (s : List Char) : List Nat :=
  (List.range s.length).filter (fun q => qualAt sep s q)

/-- Length of the first alternative (in source order) matching right
after position q; this is the alternative a backtracking match ends
with. -/
def altLenAt (_sep : Char) (ls : List Char) (q : Nat) : Nat :=
  ((htmlAlts.find? (fun a => List.isPrefixOf a (ls.drop (q + 1)))).getD []).length

/-- One stateful test of a module-level global case-insensitive regex
`.+SEP(html|htm|xhtml|xml)` (SEP the dot for HTML_FILENAME_REGEX, the
slash for HTML_CONTENT_TYPE_REGEX): a match starting at or after
lastIndex exists exactly when some qualifying position lies strictly
after it; the greedy dot-plus makes the match end after the last such
position, which becomes the new lastIndex; on failure lastIndex resets
to zero. -/
def jsTestHtml (sep : Char) (k : Nat) (s : List Char) : Bool × Nat :=
  let ls := s.map lowerAscii
  let qs := (qualPositions sep ls).filter (fun q => decide (k + 1 ≤ q))
  if qs = [] then (false, 0)
  else (true, (qs.getLast?).getD 0 + 1 + altLenAt sep ls ((qs.getLast?).getD 0))

/-- The pure, fresh-state reading of the same regex: the (lower-cased)
string contains, after at least one character, the separator followed by
one of the HTML alternatives. -/
def containsHtmlToken (sep : Char) (s : String) : Bool :=
  (List.range (s.toList.map lowerAscii).length).any (fun q =>
    decide (1 ≤ q) && qualAt sep (s.toList.map lowerAscii) q)

/-- Shared lastIndex state of the two module-level regexes. -/
structure RegexSt where
  fileLi : Nat
  ctLi : Nat
deriving DecidableEq

/-- Outcome of page.goto for one URL: a thrown navigation error, a null
response (whose headers() access then throws), or a response with
status, optional content-type header, body bytes and text. -/
inductive NavOutcome where
  | throwErr
  | nullResp
  | resp (status : Nat) (ct : Option String) (body : List Nat) (text : String)
deriving DecidableEq

/-- Outcome of the raw page.request.fetch for one URL. -/
structure RawResp where
  status : Nat
  ct : Option String
  body : List Nat
  text : String
deriving DecidableEq

/-- The response record request builds (HttpResponse.response). -/
structure ReqResult where
  status : Nat
  ct : Option String
  body : List Nat
  text : String
  binary : Bool
  url : String
deriving DecidableEq

/-- scraping.ts request: navigate, read the content-type header (an
absent header is the undefined value, which the regex test coerces to
the string undefined), run the two stateful regex tests with
short-circuiting (the content-type regex is only consulted when the
filename regex fails), re-issue a raw fetch with binary = true when both
fail, and populate the result from whichever response is final. -/
def requestM (nav : NavOutcome) (raw : Option RawResp) (url : String)
    (st : RegexSt) : Except Unit (ReqResult × RegexSt) :=
  match nav with
  | NavOutcome.throwErr => Except.error ()
  | NavOutcome.nullResp => Except.error ()
  | NavOutcome.resp status ct body text =>
    let t1 := jsTestHtml '.' st.fileLi url.toList
    let navRes : ReqResult :=
      { status := status, ct := ct, body := body, text := text,
        binary := false, url := url }
    if t1.1 then
      Except.ok (navRes, { fileLi := t1.2, ctLi := st.ctLi })
    else
      let t2 := jsTestHtml '/' st.ctLi ((ct.getD ("undefined")).toList)
      if t2.1 then
        Except.ok (navRes, { fileLi := t1.2, ctLi := t2.2 })
      else
        match raw with
        | none => Except.error ()
        | some r =>
          let rawRes : ReqResult :=
            { status := r.status, ct := r.ct, body := r.body,
              text := r.text, binary := true, url := url }
          Except.ok (rawRes, { fileLi := t1.2, ctLi := t2.2 })

/-- A character list contains two adjacent slashes. -/
def hasDoubleSlash : List Char → Bool
  | a :: b :: t => (decide (a = '/') && decide (b = '/')) || hasDoubleSlash (b :: t)
  | _ => false

theorem collapseSlashes_head (c : Char) (t : List Char) :
    (collapseSlashes (c :: t)).head? = some c := by
  induction t generalizing c with
  | nil => rfl
  | cons b rest ih =>
    by_cases h : c = '/' ∧ b = '/'
    · simp only [collapseSlashes, if_pos h, ih b]
      rw [h.1, h.2]
    · simp only [collapseSlashes, if_neg h, List.head?_cons]

theorem collapseSlashes_noDub (l : List Char) :
    hasDoubleSlash (collapseSlashes l) = false := by
  induction l with
  | nil => rfl
  | cons a t ih =>
    cases t with
    | nil => rfl
    | cons b rest =>
      by_cases h : a = '/' ∧ b = '/'
      · simpa only [collapseSlashes, if_pos h] using ih
      · have hh := collapseSlashes_head b rest
        obtain ⟨tl, htl⟩ : ∃ tl, collapseSlashes (b :: rest) = b :: tl := by
          cases hc : collapseSlashes (b :: rest) with
          | nil => rw [hc] at hh; simp at hh
          | cons x xs =>
            rw [hc] at hh
            simp only [List.head?_cons, Option.some.injEq] at hh
            exact ⟨xs, by rw [hh]⟩
        rw [show collapseSlashes (a :: b :: rest) = a :: collapseSlashes (b :: rest) from by
          simp [collapseSlashes, if_neg h], htl]
        have htail : hasDoubleSlash (b :: tl) = false := by rw [← htl]; exact ih
        simp only [hasDoubleSlash, htail, Bool.or_false]
        rcases not_and_or.mp h with h1 | h1 <;> simp [h1]

/-- C8: canonicalizing the relative link two-slash-c against the page
http://host//a//b yields http://host/a/b/c; collapsing never leaves two
adjacent slashes, and when the scheme separator is present
removeDoubleBars keeps the part before it and the separator itself
untouched and collapses only what follows. -/
theorem canonicalize_collapses_separators :
    canonicalizeLink ("http://host//a//b") ("//c") = ("http://host/a/b/c")
    ∧ (∀ l : List Char, hasDoubleSlash (collapseSlashes l) = false)
    ∧ (∀ (l : List Char) (i : Nat), findSchemeSep l = some i →
        ∃ r, removeDoubleBarsL l = l.take i ++ ':' :: '/' :: '/' :: r ∧
          hasDoubleSlash r = false) := by
  refine ⟨by decide, fun l => collapseSlashes_noDub l, ?_⟩
  intro l i h
  simp only [removeDoubleBarsL, h]
  refine ⟨_, rfl, ?_⟩
  exact collapseSlashes_noDub _

/-- Witness for C8 at a concrete input with a scheme separator. -/
theorem canonicalize_collapses_separators_witness :
    ∃ r, removeDoubleBarsL (("http://x//y").toList)
        = (("http://x//y").toList).take 4 ++ ':' :: '/' :: '/' :: r ∧
      hasDoubleSlash r = false :=
  canonicalize_collapses_separators.2.2 (("http://x//y").toList) 4 (by decide)

/-- C9: the domain filter admits a parseable candidate exactly when its
hostname contains the configured base domain as a substring, rejects
every candidate whose host cannot be parsed, and on the fixture of the
spec admits the base-domain and subdomain links but not the unrelated
host. -/
theorem filterSameDomain_admission :
    (∀ link base h, parseHostname link = some h →
      admitDomain link base = containsSubstr h base)
    ∧ (∀ link base, parseHostname link = none → admitDomain link base = false)
    ∧ filterSameDomainLinks ("http://base-domain.example/")
        [("http://base-domain.example/a"), ("http://other.example/b"),
         ("http://sub.base-domain.example/c")] ("base-domain.example") 0
      = ([("http://base-domain.example/a"), ("http://sub.base-domain.example/c")], 0) := by
  refine ⟨?_, ?_, by decide⟩
  · intro link base h hp
    unfold admitDomain
    rw [hp]
  · intro link base hp
    unfold admitDomain
    rw [hp]

/-- C5 counterexample: the claim that binary = true exactly when the
URL suffix is outside the HTML set and the content type is not
HTML-like fails in both directions. First call, fresh regex state: the
URL http://h/a.htmlx has suffix htmlx (not in the set) and content type
image/png, yet the unanchored regex matches the html substring and the
result is binary = false with lastIndex 15. Second call, with the state
the first call left behind: the URL http://h/b.html has suffix html (in
the set), but lastIndex 15 makes the stale test fail, the content type
text/plain does not rescue it, and the result is binary = true. -/
theorem request_binary_counterexample :
    requestM (NavOutcome.resp 200 (some ("image/png")) [1] (""))
        (some ⟨200, some ("image/png"), [1], ("")⟩) ("http://h/a.htmlx") ⟨0, 0⟩
      = Except.ok (⟨200, some ("image/png"), [1], (""), false, ("http://h/a.htmlx")⟩,
          ⟨15, 0⟩)
    ∧ requestM (NavOutcome.resp 200 (some ("text/plain")) [2] ("x"))
        (some ⟨200, some ("text/plain"), [2], ("x")⟩) ("http://h/b.html") ⟨15, 0⟩
      = Except.ok (⟨200, some ("text/plain"), [2], ("x"), true, ("http://h/b.html")⟩,
          ⟨0, 0⟩) := by
  exact ⟨rfl, rfl⟩

theorem jsTestHtml_fst_fresh (sep : Char) (s : String) :
    (jsTestHtml sep 0 s.toList).1 = containsHtmlToken sep s := by
  unfold jsTestHtml containsHtmlToken qualPositions
  simp only [List.filter_filter]
  by_cases h : List.filter (fun a => decide (0 + 1 ≤ a) &&
      qualAt sep (List.map lowerAscii s.toList) a)
      (List.range (List.map lowerAscii s.toList).length) = []
  · rw [if_pos h]
    symm
    rw [← Bool.not_eq_true, List.any_eq_true]
    rintro ⟨q, hq, hp⟩
    apply List.filter_eq_nil_iff.mp h q hq
    simp only [Bool.and_eq_true, decide_eq_true_eq] at hp ⊢
    exact ⟨by omega, hp.2⟩
  · rw [if_neg h]
    symm
    rw [List.any_eq_true]
    obtain ⟨q, hq⟩ := List.exists_mem_of_ne_nil _ h
    obtain ⟨hqr, hqp⟩ := List.mem_filter.mp hq
    refine ⟨q, hqr, ?_⟩
    simp only [Bool.and_eq_true, decide_eq_true_eq] at hqp ⊢
    exact ⟨by omega, hqp.2⟩

/-- C5 amended: starting from fresh regex state (both lastIndex zero)
and with the raw fetch available, request succeeds and marks
binary = true exactly when the URL does not contain, after at least one
character, a dot followed by html, htm, xhtml or xml (case-folded), and
the content-type string (the text undefined when the header is absent)
does not contain, after at least one character, a slash followed by one
of those tokens. The regexes are unanchored substring tests, not suffix
tests, and their global flag makes lastIndex persist across calls, so a
later call can classify the same inputs differently. -/
theorem request_binary_fresh_characterization (status : Nat) (ct : Option String)
    (body : List Nat) (text : String) (r : RawResp) (url : String) :
    ∃ res st', requestM (NavOutcome.resp status ct body text) (some r) url ⟨0, 0⟩
        = Except.ok (res, st')
      ∧ (res.binary = true ↔
          (containsHtmlToken '.' url = false ∧
           containsHtmlToken '/' (ct.getD ("undefined")) = false)) := by
  have e1 := jsTestHtml_fst_fresh '.' url
  have e2 := jsTestHtml_fst_fresh '/' (ct.getD ("undefined"))
  cases h1 : (jsTestHtml '.' 0 url.toList).1 with
  | true =>
    simp only [requestM, h1, if_true]
    refine ⟨_, _, rfl, ?_⟩
    rw [h1] at e1
    simp [← e1]
  | false =>
    cases h2 : (jsTestHtml '/' 0 ((ct.getD ("undefined")).toList)).1 with
    | true =>
      simp only [requestM, h1, h2, Bool.false_eq_true, if_false, if_true]
      refine ⟨_, _, rfl, ?_⟩
      rw [h1] at e1
      rw [h2] at e2
      simp [← e1, ← e2]
    | false =>
      simp only [requestM, h1, h2, Bool.false_eq_true, if_false]
      refine ⟨_, _, rfl, ?_⟩
      rw [h1] at e1
      rw [h2] at e2
      simp [← e1, ← e2]

/-- Witness for C9: the subdomain fixture link parses and is admitted by
the substring rule. -/
theorem filterSameDomain_admission_witness :
    parseHostname ("http://sub.base-domain.example/c") = some ("sub.base-domain.example")
    ∧ admitDomain ("http://sub.base-domain.example/c") ("base-domain.example")
      = containsSubstr ("sub.base-domain.example") ("base-domain.example")
    ∧ admitDomain ("other-scheme-less-junk") ("base-domain.example") = false :=
  ⟨by decide,
   filterSameDomain_admission.1 ("http://sub.base-domain.example/c")
     ("base-domain.example") ("sub.base-domain.example") (by decide),
   filterSameDomain_admission.2.1 ("other-scheme-less-junk") ("base-domain.example")
     (by decide)⟩

/-- Hexadecimal digit value of a character. -/
def hexVal (c : Char) : Option Nat :=
  if 48 ≤ c.toNat ∧ c.toNat ≤ 57 then some (c.toNat - 48)
  else if 65 ≤ c.toNat ∧ c.toNat ≤ 70 then some (c.toNat - 55)
  else if 97 ≤ c.toNat ∧ c.toNat ≤ 102 then some (c.toNat - 87)
  else none

/-- Tokenize a percent-encoded string: literal characters stay
characters, a percent sign must be followed by two hexadecimal digits
and becomes a byte; a malformed escape is a thrown URIError. -/
def pctTokens : List Char → Option (List (Sum Char Nat))
  | [] => some []
  | ['%'] => none
  | ['%', _] => none
  | '%' :: a :: b :: t =>
    match hexVal a, hexVal b, pctTokens t with
    | some ha, some hb, some r => some (Sum.inr (16 * ha + hb) :: r)
    | _, _, _ => none
  | c :: t => (pctTokens t).map (fun r => Sum.inl c :: r)

/-- Strict UTF-8 decoder over byte values: rejects truncated sequences,
bad continuation bytes, overlong forms, surrogate code points and
values beyond the Unicode range, as decodeURIComponent does. -/
def utf8Decode : List Nat → Option (List Char)
  | [] => some []
  | b :: t =>
    if b < 128 then (utf8Decode t).map (fun r => Char.ofNat b :: r)
    else if 194 ≤ b ∧ b ≤ 223 then
      match t with
      | b2 :: t2 =>
        if 128 ≤ b2 ∧ b2 ≤ 191 then
          (utf8Decode t2).map (fun r => Char.ofNat ((b - 192) * 64 + (b2 - 128)) :: r)
        else none
      | [] => none
    else if 224 ≤ b ∧ b ≤ 239 then
      match t with
      | b2 :: b3 :: t3 =>
        if (128 ≤ b2 ∧ b2 ≤ 191) ∧ (128 ≤ b3 ∧ b3 ≤ 191) then
          let cp := (b - 224) * 4096 + (b2 - 128) * 64 + (b3 - 128)
          if 2048 ≤ cp ∧ ¬(55296 ≤ cp ∧ cp ≤ 57343) then
            (utf8Decode t3).map (fun r => Char.ofNat cp :: r)
          else none
        else none
      | _ => none
    else if 240 ≤ b ∧ b ≤ 244 then
      match t with
      | b2 :: b3 :: b4 :: t4 =>
        if (128 ≤ b2 ∧ b2 ≤ 191) ∧ (128 ≤ b3 ∧ b3 ≤ 191) ∧ (128 ≤ b4 ∧ b4 ≤ 191) then
          let cp := (b - 240) * 262144 + (b2 - 128) * 4096 + (b3 - 128) * 64 + (b4 - 128)
          if 65536 ≤ cp ∧ cp ≤ 1114111 then
            (utf8Decode t4).map (fun r => Char.ofNat cp :: r)
          else none
        else none
      | _ => none
    else none

/-- Leading run of byte tokens. -/
def takeBytes : List (Sum Char Nat) → List Nat × List (Sum Char Nat)
  | Sum.inr b :: t =>
    let r := takeBytes t
    (b :: r.1, r.2)
  | l => ([], l)

/-- Fuelled assembly of decoded tokens: literal characters pass through,
each maximal byte run must decode as UTF-8. -/
def decodeTokensF : Nat → List (Sum Char Nat) → Option (List Char)
  | 0, l => if l = [] then some [] else none
  | _ + 1, [] => some []
  | f + 1, Sum.inl c :: t => (decodeTokensF f t).map (fun r => c :: r)
  | f + 1, Sum.inr b :: t =>
    let bs := takeBytes (Sum.inr b :: t)
    match utf8Decode bs.1 with
    | none => none
    | some cs => (decodeTokensF f bs.2).map (fun r => cs ++ r)

/-- Model of decodeURIComponent: percent-escape tokenization followed by
UTF-8 decoding of byte runs; none models a thrown URIError. -/
def decodeURIComponentM (s : String) : Option String :=
  match pctTokens s.toList with
  | none => none
  | some toks =>
    match decodeTokensF (toks.length + 1) toks with
    | none => none
    | some cs => some (String.mk cs)

/-- JavaScript whitespace class, restricted to its common members. -/
def jsWs (c : Char) : Bool := c.toNat ∈ [9, 10, 11, 12, 13, 32, 160]

/-- A double or single quote. -/
def isQuote (c : Char) : Bool := c.toNat = 34 || c.toNat = 39

/-- Case-insensitive literal prefix test. -/
def matchesCI (pat : List Char) (l : List Char) : Bool :=
  List.isPrefixOf pat ((l.take pat.length).map lowerAscii)

/-- Attempt the extractor regex `(href|src)\s*=\s*[quote]([^quotes]+)[quote]`
at the head of the list; on a match return the captured value and the
rest after the match. -/
def tryAttr (l : List Char) : Option (List Char × List Char) :=
  let afterName : Option (List Char) :=
    if matchesCI ['h', 'r', 'e', 'f'] l then some (l.drop 4)
    else if matchesCI ['s', 'r', 'c'] l then some (l.drop 3)
    else none
  match afterName with
  | none => none
  | some r1 =>
    match (r1.dropWhile jsWs) with
    | '=' :: r3 =>
      match (r3.dropWhile jsWs) with
      | q :: r5 =>
        if isQuote q then
          let v := r5.takeWhile (fun c => ¬ (isQuote c = true))
          match v, r5.drop v.length with
          | [], _ => none
          | _ :: _, q2 :: r7 => if isQuote q2 then some (v, r7) else none
          | _ :: _, [] => none
        else none
      | [] => none
    | _ => none

/-- Fuelled leftmost scan for attribute links. -/
def scanLinks : Nat → List Char → List (List Char)
  | 0, _ => []
  | _ + 1, [] => []
  | f + 1, c :: t =>
    match tryAttr (c :: t) with
    | some (v, rest) => v :: scanLinks f rest
    | none => scanLinks f t

/-- scraping.ts extractLinks: all href and src attribute values, in
document order, no deduplication. -/
def extractLinks (html : String) : List String :=
  (scanLinks html.toList.length html.toList).map String.mk

/-- scraping.ts enqueueNewLinks: push every link not in the visited set
onto the back of the queue (duplicates inside the batch are kept). -/
def enqueueNewLinks (links : List String) (visited : List String)
    (queue : List String) : List String :=
  queue ++ links.filter (fun l => ¬ (l ∈ visited))

/-- The configuration fields of CrawlParams the crawl loop reads. -/
structure CrawlParams where
  protocol : String
  domainBase : String
  domainStart : String
  startPath : String
  port : Nat
  baseOutputDir : String
  overrides : Bool
deriving DecidableEq

/-- Outcome of one request call: a thrown error, or the populated
response record (status, body, text, binary flag) together with the
page URL after navigation (page.url()). -/
inductive ReqOutcome where
  | throwErr
  | ok (status : Nat) (body : Content) (text : Option String) (binary : Bool)
      (pageUrl : String)
deriving DecidableEq

/-- Crawl environment: the response of the browser session for each URL
and the file-system fault model. -/
structure CrawlEnv where
  req : String → ReqOutcome
  fsEnv : FsEnv

/-- Observable events of one crawl run, in order: a URL handed to
request, a savePageContent invocation, a text handed to extractLinks, a
logged per-URL failure, one pacing delay. -/
inductive Ev where
  | fetched (url : String)
  | saveCalled (url : String) (content : Content)
  | extracted (text : String)
  | errLogged (url : String)
  | paced
deriving DecidableEq

/-- State of the crawl loop: the visited list (in insertion order), the
work queue, the file system, the lastIndex of the module-level ignore
regex, and the event trace. -/
structure CrawlState where
  visited : List String
  queue : List String
  fs : FS
  ign : Nat
  trace : List Ev
deriving DecidableEq

/-- Append the pacing event (the await of interval). -/
def pace (s : CrawlState) : CrawlState := { s with trace := s.trace ++ [Ev.paced] }

/-- One iteration of the while loop of scraping.ts crawl: dequeue; a
visited URL is discarded (this continue also skips the pacing delay);
otherwise the URL joins the visited set and is fetched; on success
status 200 the page URL is decoded and the body saved; a binary result
then continues (skipping link extraction and the pacing delay);
otherwise links are extracted, filtered and enqueued; every error of
the inner try is logged per URL; all non-continue paths pace. -/
def crawlStep (env : CrawlEnv) (params : CrawlParams) (s : CrawlState) : CrawlState :=
  match s.queue with
  | [] => s
  | u :: rest =>
    if u ∈ s.visited then { s with queue := rest }
    else
      let s1 : CrawlState := { s with queue := rest, visited := s.visited ++ [u] }
      match env.req u with
      | ReqOutcome.throwErr =>
        pace { s1 with trace := s1.trace ++ [Ev.fetched u, Ev.errLogged u] }
      | ReqOutcome.ok status body text binary pageUrl =>
        let s2 : CrawlState := { s1 with trace := s1.trace ++ [Ev.fetched u] }
        if status = 200 then
          match decodeURIComponentM (removePortFromUrl pageUrl) with
          | none => pace { s2 with trace := s2.trace ++ [Ev.errLogged u] }
          | some url =>
            let s3 : CrawlState :=
              { s2 with trace := s2.trace ++ [Ev.saveCalled url body] }
            match savePageContent env.fsEnv body params.baseOutputDir url
                params.overrides s3.fs with
            | Except.error _ => pace { s3 with trace := s3.trace ++ [Ev.errLogged u] }
            | Except.ok fs2 =>
              let s4 : CrawlState := { s3 with fs := fs2 }
              if binary then s4
              else
                let txt := text.getD ("")
                let s5 : CrawlState := { s4 with trace := s4.trace ++ [Ev.extracted txt] }
                let fl := filterSameDomainLinks pageUrl (extractLinks txt)
                  params.domainBase s5.ign
                let q2 := enqueueNewLinks fl.1 s5.visited s5.queue
                pace { s5 with queue := q2, ign := fl.2 }
        else pace s2

/-- The while loop, with fuel bounding the number of iterations. -/
def crawlLoop (env : CrawlEnv) (params : CrawlParams) : Nat → CrawlState → CrawlState
  | 0, s => s
  | f + 1, s =>
    match s.queue with
    | [] => s
    | _ :: _ => crawlLoop env params f (crawlStep env params s)

/-- Initial crawl state: empty visited set, the seed URL in the queue. -/
def initState (params : CrawlParams) (fs0 : FS) : CrawlState :=
  { visited := []
    queue := [unionUrlParts params.protocol params.domainStart params.port params.startPath]
    fs := fs0
    ign := 0
    trace := [] }

/-- scraping.ts crawl: create the output root (a failure there
propagates), then run the loop; every error inside the loop body is
caught per URL, so the loop itself always returns. Browser start-up and
shutdown are external capabilities outside this model. -/
def crawl (env : CrawlEnv) (params : CrawlParams) (fs0 : FS) (fuel : Nat) :
    Except Unit CrawlState :=
  if env.fsEnv.mkdirFails params.baseOutputDir then Except.error ()
  else Except.ok (crawlLoop env params fuel (initState params fs0))

/-- URLs handed to request, in order. -/
def fetchedOf (t : List Ev) : List String :=
  t.filterMap (fun e =>
    match e with
    | Ev.fetched u => some u
    | _ => none)

/-- The pacing events of a trace. -/
def isPaced : Ev → Bool
  | Ev.paced => true
  | _ => false

/-- Number of pacing delays in a trace. -/
def pacedCount (t : List Ev) : Nat := t.countP isPaced

/-- Number of link-extractor invocations in a trace. -/
def extractedCount (t : List Ev) : Nat :=
  t.countP (fun e =>
    match e with
    | Ev.extracted _ => true
    | _ => false)

theorem crawlStep_nilQ (env : CrawlEnv) (p : CrawlParams) (s : CrawlState)
    (hq : s.queue = []) : crawlStep env p s = s := by
  unfold crawlStep
  simp only [hq]

theorem crawlStep_visited_skip (env : CrawlEnv) (p : CrawlParams) (s : CrawlState)
    (u : String) (rest : List String) (hq : s.queue = u :: rest)
    (hv : u ∈ s.visited) : crawlStep env p s = { s with queue := rest } := by
  unfold crawlStep
  simp only [hq]
  rw [if_pos hv]

theorem crawlStep_throw (env : CrawlEnv) (p : CrawlParams) (s : CrawlState)
    (u : String) (rest : List String) (hq : s.queue = u :: rest)
    (hv : ¬ u ∈ s.visited) (hr : env.req u = ReqOutcome.throwErr) :
    crawlStep env p s =
      { s with
        queue := rest
        visited := s.visited ++ [u]
        trace := s.trace ++ [Ev.fetched u, Ev.errLogged u, Ev.paced] } := by
  unfold crawlStep
  simp only [hq]
  rw [if_neg hv, hr]
  simp [pace]

theorem crawlStep_notSuccess (env : CrawlEnv) (p : CrawlParams) (s : CrawlState)
    (u : String) (rest : List String) (status : Nat) (body : Content)
    (text : Option String) (binary : Bool) (pageUrl : String)
    (hq : s.queue = u :: rest) (hv : ¬ u ∈ s.visited)
    (hr : env.req u = ReqOutcome.ok status body text binary pageUrl)
    (hst : ¬ status = 200) :
    crawlStep env p s =
      { s with
        queue := rest
        visited := s.visited ++ [u]
        trace := s.trace ++ [Ev.fetched u, Ev.paced] } := by
  unfold crawlStep
  simp only [hq]
  rw [if_neg hv, hr]
  simp [hst, pace]

theorem crawlStep_decodeFail (env : CrawlEnv) (p : CrawlParams) (s : CrawlState)
    (u : String) (rest : List String) (body : Content)
    (text : Option String) (binary : Bool) (pageUrl : String)
    (hq : s.queue = u :: rest) (hv : ¬ u ∈ s.visited)
    (hr : env.req u = ReqOutcome.ok 200 body text binary pageUrl)
    (hdec : decodeURIComponentM (removePortFromUrl pageUrl) = none) :
    crawlStep env p s =
      { s with
        queue := rest
        visited := s.visited ++ [u]
        trace := s.trace ++ [Ev.fetched u, Ev.errLogged u, Ev.paced] } := by
  unfold crawlStep
  simp only [hq]
  rw [if_neg hv, hr]
  simp [hdec, pace]

theorem crawlStep_saveFail (env : CrawlEnv) (p : CrawlParams) (s : CrawlState)
    (u : String) (rest : List String) (body : Content)
    (text : Option String) (binary : Bool) (pageUrl url : String)
    (hq : s.queue = u :: rest) (hv : ¬ u ∈ s.visited)
    (hr : env.req u = ReqOutcome.ok 200 body text binary pageUrl)
    (hdec : decodeURIComponentM (removePortFromUrl pageUrl) = some url)
    (hsv : savePageContent env.fsEnv body p.baseOutputDir url p.overrides s.fs
      = Except.error ()) :
    crawlStep env p s =
      { s with
        queue := rest
        visited := s.visited ++ [u]
        trace := s.trace ++ [Ev.fetched u, Ev.saveCalled url body, Ev.errLogged u,
          Ev.paced] } := by
  unfold crawlStep
  simp only [hq]
  rw [if_neg hv, hr]
  simp [hdec, hsv, pace]

theorem crawlStep_binary (env : CrawlEnv) (p : CrawlParams) (s : CrawlState)
    (u : String) (rest : List String) (body : Content)
    (text : Option String) (pageUrl url : String) (fs2 : FS)
    (hq : s.queue = u :: rest) (hv : ¬ u ∈ s.visited)
    (hr : env.req u = ReqOutcome.ok 200 body text true pageUrl)
    (hdec : decodeURIComponentM (removePortFromUrl pageUrl) = some url)
    (hsv : savePageContent env.fsEnv body p.baseOutputDir url p.overrides s.fs
      = Except.ok fs2) :
    crawlStep env p s =
      { s with
        queue := rest
        visited := s.visited ++ [u]
        fs := fs2
        trace := s.trace ++ [Ev.fetched u, Ev.saveCalled url body] } := by
  unfold crawlStep
  simp only [hq]
  rw [if_neg hv, hr]
  simp [hdec, hsv, pace]

theorem crawlStep_textual (env : CrawlEnv) (p : CrawlParams) (s : CrawlState)
    (u : String) (rest : List String) (body : Content)
    (text : Option String) (pageUrl url : String) (fs2 : FS)
    (hq : s.queue = u :: rest) (hv : ¬ u ∈ s.visited)
    (hr : env.req u = ReqOutcome.ok 200 body text false pageUrl)
    (hdec : decodeURIComponentM (removePortFromUrl pageUrl) = some url)
    (hsv : savePageContent env.fsEnv body p.baseOutputDir url p.overrides s.fs
      = Except.ok fs2) :
    crawlStep env p s =
      { s with
        queue := enqueueNewLinks
          (filterSameDomainLinks pageUrl (extractLinks (text.getD ("")))
            p.domainBase s.ign).1 (s.visited ++ [u]) rest
        visited := s.visited ++ [u]
        fs := fs2
        ign := (filterSameDomainLinks pageUrl (extractLinks (text.getD ("")))
          p.domainBase s.ign).2
        trace := s.trace ++ [Ev.fetched u, Ev.saveCalled url body,
          Ev.extracted (text.getD ("")), Ev.paced] } := by
  unfold crawlStep
  simp only [hq]
  rw [if_neg hv, hr]
  simp [hdec, hsv, pace]

theorem fetchedOf_append (t1 t2 : List Ev) :
    fetchedOf (t1 ++ t2) = fetchedOf t1 ++ fetchedOf t2 := by
  simp [fetchedOf]

/-- Every step either idles on an empty queue, discards a visited head
without any event, or moves the head into the visited list and emits a
trace whose fetched events are exactly that head. -/
theorem crawlStep_shape (env : CrawlEnv) (p : CrawlParams) (s : CrawlState) :
    (s.queue = [] ∧ crawlStep env p s = s)
    ∨ (∃ u rest, s.queue = u :: rest ∧ u ∈ s.visited ∧
        crawlStep env p s = { s with queue := rest })
    ∨ (∃ u rest, s.queue = u :: rest ∧ ¬ u ∈ s.visited ∧
        (crawlStep env p s).visited = s.visited ++ [u] ∧
        ∃ Δ, (crawlStep env p s).trace = s.trace ++ Δ ∧ fetchedOf Δ = [u]) := by
  rcases hq : s.queue with _ | ⟨u, rest⟩
  · exact Or.inl ⟨rfl, crawlStep_nilQ env p s hq⟩
  · by_cases hv : u ∈ s.visited
    · exact Or.inr (Or.inl ⟨u, rest, rfl, hv, crawlStep_visited_skip env p s u rest hq hv⟩)
    · refine Or.inr (Or.inr ⟨u, rest, rfl, hv, ?_⟩)
      rcases hr : env.req u with _ | ⟨status, body, text, binary, pageUrl⟩
      · rw [crawlStep_throw env p s u rest hq hv hr]
        exact ⟨rfl, [Ev.fetched u, Ev.errLogged u, Ev.paced], rfl, rfl⟩
      · by_cases hst : status = 200
        · subst hst
          rcases hdec : decodeURIComponentM (removePortFromUrl pageUrl) with _ | url
          · rw [crawlStep_decodeFail env p s u rest body text binary pageUrl hq hv hr hdec]
            exact ⟨rfl, [Ev.fetched u, Ev.errLogged u, Ev.paced], rfl, rfl⟩
          · cases hsv : savePageContent env.fsEnv body p.baseOutputDir url
                p.overrides s.fs with
            | error e =>
              cases e
              rw [crawlStep_saveFail env p s u rest body text binary pageUrl url
                hq hv hr hdec hsv]
              exact ⟨rfl, [Ev.fetched u, Ev.saveCalled url body, Ev.errLogged u,
                Ev.paced], rfl, rfl⟩
            | ok fs2 =>
              cases binary with
              | true =>
                rw [crawlStep_binary env p s u rest body text pageUrl url fs2
                  hq hv hr hdec hsv]
                exact ⟨rfl, [Ev.fetched u, Ev.saveCalled url body], rfl, rfl⟩
              | false =>
                rw [crawlStep_textual env p s u rest body text pageUrl url fs2
                  hq hv hr hdec hsv]
                exact ⟨rfl, [Ev.fetched u, Ev.saveCalled url body,
                  Ev.extracted (text.getD ("")), Ev.paced], rfl, rfl⟩
        · rw [crawlStep_notSuccess env p s u rest status body text binary pageUrl
            hq hv hr hst]
          exact ⟨rfl, [Ev.fetched u, Ev.paced], rfl, rfl⟩

/-- The crawl invariant: the fetched URLs of the trace are exactly the
visited list (in order), and the visited list has no duplicates. -/
def InvC (s : CrawlState) : Prop :=
  fetchedOf s.trace = s.visited ∧ s.visited.Nodup

theorem crawlStep_inv (env : CrawlEnv) (p : CrawlParams) (s : CrawlState)
    (h : InvC s) : InvC (crawlStep env p s) := by
  rcases crawlStep_shape env p s with ⟨hn, heq⟩ | ⟨u, rest, hq, hv, heq⟩ |
    ⟨u, rest, hq, hv, hvis, Δ, htr, hfd⟩
  · rw [heq]; exact h
  · rw [heq]; exact h
  · constructor
    · rw [htr, hvis, fetchedOf_append, hfd, h.1]
    · rw [hvis]
      simp [List.nodup_append, h.2, hv]

theorem crawlStep_visited_mono (env : CrawlEnv) (p : CrawlParams) (s : CrawlState) :
    ∀ x ∈ s.visited, x ∈ (crawlStep env p s).visited := by
  intro x hx
  rcases crawlStep_shape env p s with ⟨hn, heq⟩ | ⟨u, rest, hq, hv, heq⟩ |
    ⟨u, rest, hq, hv, hvis, Δ, htr, hfd⟩
  · rw [heq]; exact hx
  · rw [heq]; exact hx
  · rw [hvis]; exact List.mem_append_left _ hx

theorem crawlLoop_nilQ (env : CrawlEnv) (p : CrawlParams) (s : CrawlState)
    (hq : s.queue = []) : ∀ n, crawlLoop env p n s = s := by
  intro n
  cases n with
  | zero => rfl
  | succ m => simp [crawlLoop, hq]

theorem crawlLoop_inv (env : CrawlEnv) (p : CrawlParams) :
    ∀ (f : Nat) (s : CrawlState), InvC s → InvC (crawlLoop env p f s) := by
  intro f
  induction f with
  | zero => intro s h; exact h
  | succ m ih =>
    intro s h
    cases hq : s.queue with
    | nil => simpa [crawlLoop, hq] using h
    | cons a t =>
      have := ih (crawlStep env p s) (crawlStep_inv env p s h)
      simpa [crawlLoop, hq] using this

theorem crawlLoop_visited_mono (env : CrawlEnv) (p : CrawlParams) :
    ∀ (f : Nat) (s : CrawlState) (x : String), x ∈ s.visited →
      x ∈ (crawlLoop env p f s).visited := by
  intro f
  induction f with
  | zero => intro s x hx; exact hx
  | succ m ih =>
    intro s x hx
    cases hq : s.queue with
    | nil => simpa [crawlLoop, hq] using hx
    | cons a t =>
      have := ih (crawlStep env p s) x (crawlStep_visited_mono env p s x hx)
      simpa [crawlLoop, hq] using this

theorem crawlLoop_add (env : CrawlEnv) (p : CrawlParams) :
    ∀ (m n : Nat) (s : CrawlState),
      crawlLoop env p (m + n) s = crawlLoop env p n (crawlLoop env p m s) := by
  intro m
  induction m with
  | zero => intro n s; rw [Nat.zero_add]; rfl
  | succ k ih =>
    intro n s
    cases hq : s.queue with
    | nil =>
      rw [crawlLoop_nilQ env p s hq, crawlLoop_nilQ env p s hq, crawlLoop_nilQ env p s hq]
    | cons a t =>
      have h1 : crawlLoop env p (k + 1 + n) s = crawlLoop env p (k + n) (crawlStep env p s) := by
        rw [show k + 1 + n = (k + n) + 1 from by omega]
        simp [crawlLoop, hq]
      have h2 : crawlLoop env p (k + 1) s = crawlLoop env p k (crawlStep env p s) := by
        simp [crawlLoop, hq]
      rw [h1, h2, ih n (crawlStep env p s)]

/-- C1: in any run from the initial state, the sequence of URLs handed
to request is exactly the visited list and has no duplicates (so no URL
is fetched twice); the visited list only grows as the run proceeds;
dequeuing an already-visited URL discards it with no event of any kind;
and a dequeued unvisited URL enters the visited list even when its
fetch throws. -/
theorem crawl_at_most_once_fetch :
    (∀ (env : CrawlEnv) (p : CrawlParams) (fs0 : FS) (fuel : Nat),
      fetchedOf (crawlLoop env p fuel (initState p fs0)).trace
        = (crawlLoop env p fuel (initState p fs0)).visited
      ∧ (crawlLoop env p fuel (initState p fs0)).visited.Nodup)
    ∧ (∀ (env : CrawlEnv) (p : CrawlParams) (s : CrawlState) (m n : Nat)
        (x : String), x ∈ (crawlLoop env p m s).visited →
        x ∈ (crawlLoop env p (m + n) s).visited)
    ∧ (∀ (env : CrawlEnv) (p : CrawlParams) (s : CrawlState) (u : String)
        (rest : List String), s.queue = u :: rest → u ∈ s.visited →
        crawlStep env p s = { s with queue := rest })
    ∧ (∀ (env : CrawlEnv) (p : CrawlParams) (s : CrawlState) (u : String)
        (rest : List String), s.queue = u :: rest → ¬ u ∈ s.visited →
        u ∈ (crawlStep env p s).visited) := by
  refine ⟨?_, ?_, ?_, ?_⟩
  · intro env p fs0 fuel
    exact crawlLoop_inv env p fuel (initState p fs0) ⟨rfl, List.nodup_nil⟩
  · intro env p s m n x hx
    rw [crawlLoop_add env p m n s]
    exact crawlLoop_visited_mono env p n (crawlLoop env p m s) x hx
  · intro env p s u rest hq hv
    exact crawlStep_visited_skip env p s u rest hq hv
  · intro env p s u rest hq hv
    rcases crawlStep_shape env p s with ⟨hn, heq⟩ | ⟨w, wrest, hq2, hv2, heq⟩ |
      ⟨w, wrest, hq2, hv2, hvis, Δ, htr, hfd⟩
    · exact absurd hq (by simp [hn])
    · rw [hq] at hq2
      injection hq2 with h1 h2
      subst h1
      exact absurd hv2 hv
    · rw [hq] at hq2
      injection hq2 with h1 h2
      subst h1
      rw [hvis]
      exact List.mem_append_right _ (List.mem_singleton_self u)

/-- Concrete environment: one URL whose fetch is a status 200 binary
response, everything else throws. -/
def cexEnv : CrawlEnv :=
  { req := fun u =>
      if u = ("http://h/a.png") then
        ReqOutcome.ok 200 (Content.buf [1]) none true ("http://h/a.png")
      else ReqOutcome.throwErr
    fsEnv := noFaultFs }

/-- Concrete parameters with overwrite enabled. -/
def cexParams : CrawlParams := ⟨("http"), ("h"), ("h"), (""), 80, ("out"), true⟩

/-- Concrete state: two URLs queued, nothing visited. -/
def cexState : CrawlState := ⟨[], [("http://h/a.png"), ("http://h/b")], ⟨[], []⟩, 0, []⟩

/-- Concrete environment where creating any directory other than the
output root fails, and the seed URL fetches successfully. -/
def c3Env : CrawlEnv :=
  { req := fun u =>
      if u = ("http://h:80/a/x.png") then
        ReqOutcome.ok 200 (Content.buf [7]) none false ("http://h:80/a/x.png")
      else ReqOutcome.throwErr
    fsEnv := ⟨fun d => decide (d ≠ ("out")), fun _ => false⟩ }

/-- Concrete parameters whose seed URL is http://h:80/a/x.png. -/
def c3Params : CrawlParams := ⟨("http"), ("h"), ("h"), ("a/x.png"), 80, ("out"), false⟩

/-- Concrete state queueing the failing-persistence URL and one more. -/
def c3State2 : CrawlState :=
  ⟨[], [("http://h:80/a/x.png"), ("http://h/b")], ⟨[], []⟩, 0, []⟩

/-- The dequeued URL leads to the continue statement of the binary
branch: its fetch returns status 200 with binary = true, the page URL
decodes, and savePageContent returns without error. Exactly these
iterations skip the pacing delay (besides visited-duplicate discards). -/
def binarySkips (env : CrawlEnv) (p : CrawlParams) (s : CrawlState) (u : String) : Bool :=
  match env.req u with
  | ReqOutcome.throwErr => false
  | ReqOutcome.ok status body _ binary pageUrl =>
    if status = 200 then
      match decodeURIComponentM (removePortFromUrl pageUrl) with
      | none => false
      | some url =>
        match savePageContent env.fsEnv body p.baseOutputDir url p.overrides s.fs with
        | Except.error _ => false
        | Except.ok _ => binary
    else false

/-- C2 counterexample: a processed URL whose result is a success-status
binary response is followed by no pacing delay: the next URL's fetched
event follows the save immediately, and a run of two processed URLs
contains one paced event, not two. -/
theorem crawl_pacing_counterexample :
    (crawlLoop cexEnv cexParams 2 cexState).trace
      = [Ev.fetched ("http://h/a.png"),
         Ev.saveCalled ("http://h/a.png") (Content.buf [1]),
         Ev.fetched ("http://h/b"), Ev.errLogged ("http://h/b"), Ev.paced]
    ∧ pacedCount (crawlLoop cexEnv cexParams 2 cexState).trace = 1 :=
  ⟨rfl, rfl⟩

/-- C2 amended: one iteration of the crawl loop invokes the pacing
delay exactly once unless the dequeued URL is discarded as already
visited or the iteration ends in the binary-branch continue (success
status, decodable page URL, save without error, binary result), both of
which skip the delay; thrown fetch failures, non-success statuses,
decode failures and persistence failures all still pace. -/
theorem crawl_pacing_characterization (env : CrawlEnv) (p : CrawlParams)
    (s : CrawlState) (u : String) (rest : List String)
    (hq : s.queue = u :: rest) :
    pacedCount (crawlStep env p s).trace
      = pacedCount s.trace +
        (if ¬ u ∈ s.visited ∧ binarySkips env p s u = false then 1 else 0) := by
  by_cases hv : u ∈ s.visited
  · rw [crawlStep_visited_skip env p s u rest hq hv]
    simp [hv]
  · rcases hr : env.req u with _ | ⟨status, body, text, binary, pageUrl⟩
    · rw [crawlStep_throw env p s u rest hq hv hr]
      simp [binarySkips, hr, hv, pacedCount, List.countP_append, List.countP_cons,
        isPaced]
    · by_cases hst : status = 200
      · subst hst
        rcases hdec : decodeURIComponentM (removePortFromUrl pageUrl) with _ | url
        · rw [crawlStep_decodeFail env p s u rest body text binary pageUrl hq hv hr hdec]
          simp [binarySkips, hr, hdec, hv, pacedCount, List.countP_append,
            List.countP_cons, isPaced]
        · cases hsv : savePageContent env.fsEnv body p.baseOutputDir url
              p.overrides s.fs with
          | error e =>
            cases e
            rw [crawlStep_saveFail env p s u rest body text binary pageUrl url
              hq hv hr hdec hsv]
            simp [binarySkips, hr, hdec, hsv, hv, pacedCount, List.countP_append,
              List.countP_cons, isPaced]
          | ok fs2 =>
            cases binary with
            | true =>
              rw [crawlStep_binary env p s u rest body text pageUrl url fs2
                hq hv hr hdec hsv]
              simp [binarySkips, hr, hdec, hsv, hv, pacedCount, List.countP_append,
                List.countP_cons, isPaced]
            | false =>
              rw [crawlStep_textual env p s u rest body text pageUrl url fs2
                hq hv hr hdec hsv]
              simp [binarySkips, hr, hdec, hsv, hv, pacedCount, List.countP_append,
                List.countP_cons, isPaced]
      · rw [crawlStep_notSuccess env p s u rest status body text binary pageUrl
          hq hv hr hst]
        simp [binarySkips, hr, hst, hv, pacedCount, List.countP_append,
          List.countP_cons, isPaced]

/-- Witness for the amended C2 at a concrete binary-success iteration:
the step adds no pacing event. -/
theorem crawl_pacing_characterization_witness :
    pacedCount (crawlStep cexEnv cexParams cexState).trace
      = pacedCount cexState.trace +
        (if ¬ ("http://h/a.png") ∈ cexState.visited ∧
            binarySkips cexEnv cexParams cexState ("http://h/a.png") = false
         then 1 else 0) :=
  crawl_pacing_characterization cexEnv cexParams cexState ("http://h/a.png")
    [("http://h/b")] rfl

/-- C3 counterexample: with a file system that rejects creating the
per-URL directory, the successfully fetched seed URL's persistence
throws, but crawl still returns normally with the failure logged; and
in a two-URL run the crawl continues to fetch the next URL after the
persistence failure. The file-system error does not propagate out of
crawl. -/
theorem crawl_persistence_counterexample :
    crawl c3Env c3Params ⟨[], []⟩ 3
      = Except.ok ⟨[("http://h:80/a/x.png")], [], ⟨[], []⟩, 0,
          [Ev.fetched ("http://h:80/a/x.png"),
           Ev.saveCalled ("http://h/a/x.png") (Content.buf [7]),
           Ev.errLogged ("http://h:80/a/x.png"), Ev.paced]⟩
    ∧ (crawlLoop c3Env c3Params 2 c3State2).trace
      = [Ev.fetched ("http://h:80/a/x.png"),
         Ev.saveCalled ("http://h/a/x.png") (Content.buf [7]),
         Ev.errLogged ("http://h:80/a/x.png"), Ev.paced,
         Ev.fetched ("http://h/b"), Ev.errLogged ("http://h/b"), Ev.paced] :=
  ⟨rfl, rfl⟩

/-- C3 amended: a file-system error while persisting one URL is caught
by the per-URL handler exactly like a fetch failure: the failure is
logged, the delay runs, and the loop moves on to the rest of the queue;
the loop itself never propagates an error (crawl only fails when the
output root itself cannot be created, before the loop). -/
theorem crawl_failure_isolation :
    (∀ (env : CrawlEnv) (p : CrawlParams) (fs0 : FS) (fuel : Nat),
      env.fsEnv.mkdirFails p.baseOutputDir = false →
      crawl env p fs0 fuel = Except.ok (crawlLoop env p fuel (initState p fs0)))
    ∧ (∀ (env : CrawlEnv) (p : CrawlParams) (s : CrawlState) (u : String)
        (rest : List String) (body : Content) (text : Option String)
        (binary : Bool) (pageUrl url : String),
        s.queue = u :: rest → ¬ u ∈ s.visited →
        env.req u = ReqOutcome.ok 200 body text binary pageUrl →
        decodeURIComponentM (removePortFromUrl pageUrl) = some url →
        savePageContent env.fsEnv body p.baseOutputDir url p.overrides s.fs
          = Except.error () →
        crawlStep env p s =
          { s with
            queue := rest
            visited := s.visited ++ [u]
            trace := s.trace ++ [Ev.fetched u, Ev.saveCalled url body,
              Ev.errLogged u, Ev.paced] })
    ∧ (∀ (env : CrawlEnv) (p : CrawlParams) (s : CrawlState) (u : String)
        (rest : List String),
        s.queue = u :: rest → ¬ u ∈ s.visited →
        env.req u = ReqOutcome.throwErr →
        crawlStep env p s =
          { s with
            queue := rest
            visited := s.visited ++ [u]
            trace := s.trace ++ [Ev.fetched u, Ev.errLogged u, Ev.paced] }) := by
  refine ⟨?_, ?_, ?_⟩
  · intro env p fs0 fuel h
    unfold crawl
    simp [h]
  · intro env p s u rest body text binary pageUrl url hq hv hr hdec hsv
    exact crawlStep_saveFail env p s u rest body text binary pageUrl url
      hq hv hr hdec hsv
  · intro env p s u rest hq hv hr
    exact crawlStep_throw env p s u rest hq hv hr

/-- Witness for the amended C3 at concrete inputs: crawl completes with
an ok result under the directory-fault environment, and a concrete
persistence-failure step logs and continues. -/
theorem crawl_failure_isolation_witness :
    crawl c3Env c3Params ⟨[], []⟩ 3
      = Except.ok (crawlLoop c3Env c3Params 3 (initState c3Params ⟨[], []⟩))
    ∧ crawlStep c3Env c3Params c3State2 =
        { c3State2 with
          queue := [("http://h/b")]
          visited := [("http://h:80/a/x.png")]
          trace := [Ev.fetched ("http://h:80/a/x.png"),
            Ev.saveCalled ("http://h/a/x.png") (Content.buf [7]),
            Ev.errLogged ("http://h:80/a/x.png"), Ev.paced] } :=
  ⟨crawl_failure_isolation.1 c3Env c3Params ⟨[], []⟩ 3 rfl,
   crawl_failure_isolation.2.1 c3Env c3Params c3State2 ("http://h:80/a/x.png")
     [("http://h/b")] (Content.buf [7]) none false ("http://h:80/a/x.png")
     ("http://h/a/x.png") rfl (by decide) rfl rfl rfl⟩

/-- C4: a dequeued URL whose fetch yields a success-status binary
response has its body handed to savePageContent, its text is never
handed to extractLinks, and the queue after the step is exactly the
remaining queue — zero new entries; and the fetch strategy classifies
the example of the spec (URL ending .png, content type image/png, fresh
regex state) as binary. -/
theorem crawl_binary_short_circuit :
    (∀ (env : CrawlEnv) (p : CrawlParams) (s : CrawlState) (u : String)
      (rest : List String) (body : Content) (text : Option String)
      (pageUrl url : String),
      s.queue = u :: rest → ¬ u ∈ s.visited →
      env.req u = ReqOutcome.ok 200 body text true pageUrl →
      decodeURIComponentM (removePortFromUrl pageUrl) = some url →
      (crawlStep env p s).queue = rest
      ∧ ∃ Δ, (crawlStep env p s).trace = s.trace ++ Δ
          ∧ Ev.saveCalled url body ∈ Δ
          ∧ extractedCount Δ = 0)
    ∧ requestM (NavOutcome.resp 200 (some ("image/png")) [9] (""))
        (some ⟨200, some ("image/png"), [9], ("")⟩) ("http://h/img.png") ⟨0, 0⟩
      = Except.ok (⟨200, some ("image/png"), [9], (""), true, ("http://h/img.png")⟩,
          ⟨0, 0⟩) := by
  constructor
  · intro env p s u rest body text pageUrl url hq hv hr hdec
    cases hsv : savePageContent env.fsEnv body p.baseOutputDir url
        p.overrides s.fs with
    | error e =>
      cases e
      rw [crawlStep_saveFail env p s u rest body text true pageUrl url
        hq hv hr hdec hsv]
      exact ⟨rfl, [Ev.fetched u, Ev.saveCalled url body, Ev.errLogged u, Ev.paced],
        rfl, by simp, rfl⟩
    | ok fs2 =>
      rw [crawlStep_binary env p s u rest body text pageUrl url fs2 hq hv hr hdec hsv]
      exact ⟨rfl, [Ev.fetched u, Ev.saveCalled url body], rfl, by simp, rfl⟩
  · rfl

/-- Witness for C4 at a concrete binary iteration. -/
theorem crawl_binary_short_circuit_witness :
    (crawlStep cexEnv cexParams cexState).queue = [("http://h/b")]
    ∧ ∃ Δ, (crawlStep cexEnv cexParams cexState).trace = cexState.trace ++ Δ
        ∧ Ev.saveCalled ("http://h/a.png") (Content.buf [1]) ∈ Δ
        ∧ extractedCount Δ = 0 :=
  crawl_binary_short_circuit.1 cexEnv cexParams cexState ("http://h/a.png")
    [("http://h/b")] (Content.buf [1]) none ("http://h/a.png") ("http://h/a.png")
    rfl (by decide) rfl rfl

/-- Witness for C1 at concrete inputs: a visited dequeued URL is
discarded without any event, and an unvisited dequeued URL enters the
visited list. -/
theorem crawl_at_most_once_fetch_witness :
    crawlStep cexEnv cexParams ⟨[("u")], [("u")], ⟨[], []⟩, 0, []⟩
      = { visited := [("u")], queue := [], fs := ⟨[], []⟩, ign := 0, trace := [] }
    ∧ ("http://h/a.png") ∈ (crawlStep cexEnv cexParams cexState).visited :=
  ⟨crawl_at_most_once_fetch.2.2.1 cexEnv cexParams
     ⟨[("u")], [("u")], ⟨[], []⟩, 0, []⟩ ("u") [] rfl (by decide),
   crawl_at_most_once_fetch.2.2.2 cexEnv cexParams cexState ("http://h/a.png")
     [("http://h/b")] rfl (by decide)⟩

end WebScraping
